import Mathlib

/-
  Verification development for the paris-lang interpreter
  (src/lib.rs and src/main.rs of flowtr/paris-lang).

  Shallow embedding notes:
  * Rust `f64` number payloads are modelled as `ℚ`; the interpreter never
    performs arithmetic on numbers, only the sign test `n > 0.0` and
    textual display, both of which `ℚ` represents exactly for every value
    the language can construct.
  * Rust `i64` range endpoints are modelled as `Int` (the program performs
    only `end - start` iteration counting, which cannot overflow observably
    in the `for _ in start..end` construct).
  * The mutable `HashMap<String, Value>` environment is modelled as a
    function `String → Option Value`, with insert-overwrite.
  * `stdout` is modelled as the `String` component threaded through
    evaluation results.
  * The two `loop { ... }` arms of `While` are genuinely non-terminating in
    the source, so evaluation is step-indexed by `fuel`: only those two
    loops consume fuel, and `.timeout` means "still running after `fuel`
    body passes".  Every terminating construct is fuel-independent.
  * Rust `panic!` (process abort) is modelled by the `.crash` outcome.
-/

namespace Paris

/-- Runtime values: `enum Value` of src/lib.rs (the `f64` payload of
`Number` is modelled as `ℚ`, the `i64` payloads of `Range` as `Int`). -/
inductive Value
| Null
| String (s : String)
| Number (n : ℚ)
| Range (start stop : Int)
| Boolean (b : Bool)
deriving DecidableEq, Repr

/-- The decimal digit character for `d < 10`. -/
def digitChar (d : Nat) : Char :=
  if d = 0 then '0' else if d = 1 then '1' else if d = 2 then '2'
  else if d = 3 then '3' else if d = 4 then '4' else if d = 5 then '5'
  else if d = 6 then '6' else if d = 7 then '7' else if d = 8 then '8'
  else '9'

/-- Big-endian decimal digits of `n` (empty for `0`); `fuel ≥ n` is enough
fuel, since a number has no more decimal digits than its own value. -/
def natDigitsAux : Nat → Nat → List Char
| 0, _ => []
| fuel+1, n =>
  if n = 0 then [] else natDigitsAux fuel (n / 10) ++ [digitChar (n % 10)]

/-- The standard decimal numeral of `n`, as Rust's integer formatting
prints it (`"0"` for zero, no leading zeros otherwise). -/
def natDigits (n : Nat) : List Char :=
  if n = 0 then ['0'] else natDigitsAux n n

/-- The multiplicity of `p` in `n`: how often `p ≥ 2` divides `n`. -/
def factorCount (p n : Nat) : Nat :=
  if h : 2 ≤ p ∧ 0 < n ∧ n % p = 0 then factorCount p (n / p) + 1 else 0
termination_by n
decreasing_by exact Nat.div_lt_self h.2.1 h.1

/-- The textual rendering of a Rust `f64` (`write!(f, "{}", v)` in
src/lib.rs line 20) on the rational `q` it denotes.  Rust prints an
integral double with no decimal part, and any other double as its
shortest round-tripping decimal text.  Every `f64` is a dyadic rational
and every `Number` this program can build is the value of a decimal
literal, so every number in the image of the embedding has a terminating
decimal expansion — a reduced denominator `2 ^ a * 5 ^ b` — and for
those the shortest decimal text is exactly the terminating expansion
with `max a b` fractional digits (its last digit is nonzero because no
smaller power of ten clears the reduced denominator), which is what this
function produces; a rational with any other prime in its denominator is
the value of no `f64` at all, cannot arise, and falls back to the raw
`num/den` rendering. -/
def numToString (q : ℚ) : String :=
  if q.den = 1 then toString q.num
  else
    let a := factorCount 2 q.den
    let b := factorCount 5 q.den
    if q.den = 2 ^ a * 5 ^ b then
      let k := max a b
      let m := q.num.natAbs * 10 ^ k / q.den
      (if q.num < 0 then "-" else "")
        ++ String.mk (natDigits (m / 10 ^ k))
        ++ "."
        ++ String.mk (List.replicate (k - (natDigits (m % 10 ^ k)).length) '0'
             ++ natDigits (m % 10 ^ k))
    else toString q

/-- `impl Display for Value` (src/lib.rs lines 15-25): `Null` renders as
empty text, `Range(start, end)` as `"start..end"`, the others by their
payload's own `Display`. -/
def valueToString : Value → String
| Value.Null => ""
| Value.String v => v
| Value.Number v => numToString v
| Value.Boolean v => if v then "true" else "false"
| Value.Range start stop => toString start ++ ".." ++ toString stop

/-- AST nodes: `enum Node` of src/lib.rs.  `Spanned = (Node, Range<usize>)`
appears here as `Node × Nat × Nat` (start/end byte offsets). -/
inductive Node
| NumericLiteral (n : ℚ)
| StringLiteral (s : String)
| BooleanLiteral (b : Bool)
| Ident (name : String)
| Op (run : String)
| Call (callee : Node × Nat × Nat) (args : List (Node × Nat × Nat))
| While (cond : Node × Nat × Nat) (body : List (Node × Nat × Nat))
| Range (start stop : Int)
| Variable (name : String) (value : Node × Nat × Nat)
deriving Repr

/-- A byte-offset span `Range<usize>` of the source text. -/
abbrev Span := Nat × Nat

/-- `pub type Spanned = (Node, Range<usize>)`. -/
abbrev Spanned := Node × Span

/-- `enum EvaluationError` of src/lib.rs. -/
inductive EvaluationError
| FunctionNotFound (name : String)
| VariableNotFound (name : String)
deriving DecidableEq, Repr

/-- `pub type SpannedEvaluationError = (EvaluationError, Range<usize>)`. -/
abbrev SpannedEvaluationError := EvaluationError × Span

/-- The mutable `HashMap<String, Value>` variable environment. -/
def Env := String → Option Value

/-- The empty environment (`HashMap::new()` in src/main.rs). -/
def emptyEnv : Env := fun _ => none

/-- `variables.insert(name, val)`: overwrites any earlier binding. -/
def insertVar (name : String) (v : Value) (env : Env) : Env :=
  fun k => if k = name then some v else env k

/-- Outcome of one evaluation: `Ok(v)`, `Err(e)` (the two recoverable
errors), `.crash` for a Rust `panic!` (process abort), `.timeout` for
"still inside a non-terminating loop after the available fuel". -/
inductive EResult
| ok (v : Value)
| err (e : SpannedEvaluationError)
| crash
| timeout
deriving DecidableEq, Repr

/-- An evaluation outcome together with the environment after the call and
the text the call wrote to stdout. -/
abbrev EvalOut := EResult × Env × String

/-- Prefix already-produced stdout text onto an outcome. -/
def prependOut (o : String) : EvalOut → EvalOut
| (r, env, o2) => (r, env, o ++ o2)

/-- The `loop { for node in body { eval(...)? } }` of the `Number`/`Boolean`
arms of `While` (src/lib.rs lines 203-207 and 212-216): run `step` (one
full pass over the body) forever; the loop can only be left by a failing
pass.  `fuel` bounds how many passes the model unrolls. -/
def loopForever : Nat → (Env → EvalOut) → Env → EvalOut
| 0, _, env => (.timeout, env, "")
| fuel+1, step, env =>
  match step env with
  | (.ok _, env', o) => prependOut o (loopForever fuel step env')
  | other => other

/-- The `for _ in start..end { ... }` of the `Range` arm of `While`
(src/lib.rs lines 220-224): run `step` exactly `count` times, stopping at
the first failing pass; falling off the loop reaches the trailing
`Ok(Value::Null)` of `eval`. -/
def loopN : Nat → (Env → EvalOut) → Env → EvalOut
| 0, _, env => (.ok Value.Null, env, "")
| count+1, step, env =>
  match step env with
  | (.ok _, env', o) => prependOut o (loopN count step env')
  | other => other

/-- Outcome of the `display` argument loop (src/lib.rs lines 176-183):
on success the concatenated text `acc` plus any stdout the argument
evaluations themselves produced. -/
inductive ArgsOut
| ok (acc : String) (env : Env) (out : String)
| fail (r : EResult) (env : Env) (out : String)

mutual

/-- `pub fn eval` of src/lib.rs (lines 167-250), one arm per `Node`
constructor, in source order of the cases that return early; arms that do
not `return` fall through to the trailing `Ok(Value::Null)`. -/
def eval (fuel : Nat) (node : Spanned) (env : Env) : EvalOut :=
  match node with
  | (Node.Call cname args, _) =>
    match cname with
    | (Node.Ident name, cspan) =>
      if name = "display" then
        match evalArgs fuel args env "" with
        | ArgsOut.ok acc env' o => (.ok Value.Null, env', o ++ acc ++ "\n")
        | ArgsOut.fail r env' o => (r, env', o)
      else (.err (EvaluationError.FunctionNotFound name, cspan), env, "")
    | _ => (.ok Value.Null, env, "")
  | (Node.StringLiteral s, _) => (.ok (Value.String s), env, "")
  | (Node.NumericLiteral n, _) => (.ok (Value.Number n), env, "")
  | (Node.BooleanLiteral b, _) => (.ok (Value.Boolean b), env, "")
  | (Node.Range a b, _) => (.ok (Value.Range a b), env, "")
  | (Node.While cond body, _) =>
    match eval fuel cond env with
    | (.ok c, env', o) =>
      match c with
      | Value.Number n =>
        if 0 < n then
          prependOut o (loopForever fuel (fun e => evalSeq fuel body e) env')
        else (.ok Value.Null, env', o)
      | Value.Boolean b =>
        if b then
          prependOut o (loopForever fuel (fun e => evalSeq fuel body e) env')
        else (.ok Value.Null, env', o)
      | Value.Range a b =>
        prependOut o (loopN (b - a).toNat (fun e => evalSeq fuel body e) env')
      | _ => (.ok Value.Null, env', o)
    | other => other
  | (Node.Variable name value, _) =>
    match eval fuel value env with
    | (.ok v, env', o) => (.ok Value.Null, insertVar name v env', o)
    | other => other
  | (Node.Ident id, sp) =>
    match env id with
    | some v => (.ok v, env, "")
    | none => (.err (EvaluationError.VariableNotFound id, sp), env, "")
  | (Node.Op _, _) => (.crash, env, "")

/-- One pass of `for node in body { eval(source, node, variables)?; }`:
evaluate each statement in order, stopping at the first failure. -/
def evalSeq (fuel : Nat) (nodes : List Spanned) (env : Env) : EvalOut :=
  match nodes with
  | [] => (.ok Value.Null, env, "")
  | n :: rest =>
    match eval fuel n env with
    | (.ok _, env', o) => prependOut o (evalSeq fuel rest env')
    | other => other

/-- The `display` argument loop `for arg in args { ... result += value }`
(src/lib.rs lines 178-182): evaluate the arguments left to right,
appending each value's text to `acc`. -/
def evalArgs (fuel : Nat) (args : List Spanned) (env : Env) (acc : String) :
    ArgsOut :=
  match args with
  | [] => ArgsOut.ok acc env ""
  | a :: rest =>
    match eval fuel a env with
    | (.ok v, env', o) =>
      match evalArgs fuel rest env' (acc ++ valueToString v) with
      | ArgsOut.ok acc2 env2 o2 => ArgsOut.ok acc2 env2 (o ++ o2)
      | ArgsOut.fail r env2 o2 => ArgsOut.fail r env2 (o ++ o2)
    | (r, env', o) => ArgsOut.fail r env' o

end

/-- The driver loop of `main` (src/main.rs lines 19-24): evaluate each
top-level node in order against the shared environment; an `Ok(val)` is
printed with `print!` (no newline), an `Err` is pushed onto the error list
and the loop continues with the next statement.  `.crash` aborts the
process and `.timeout` means the process is still inside a non-terminating
statement, so in both cases no later statement runs. -/
def runProgram (fuel : Nat) (nodes : List Spanned) (env : Env) :
    Env × String × List SpannedEvaluationError :=
  match nodes with
  | [] => (env, "", [])
  | n :: rest =>
    match eval fuel n env with
    | (.ok v, env', o) =>
      let (e2, o2, errs) := runProgram fuel rest env'
      (e2, o ++ valueToString v ++ o2, errs)
    | (.err e, env', o) =>
      let (e2, o2, errs) := runProgram fuel rest env'
      (e2, o ++ o2, e :: errs)
    | (_, env', o) => (env', o, [])

/-! ## The `range` rule of the lexer

The `range` sub-parser of `lexer()` (src/lib.rs lines 55-73) is
`text::int(10).separated_by(just("..")).try_map(...)`.  It is embedded
here directly over `List Char` with an explicit byte position, following
chumsky's documented behaviour of the combinators used:
`text::int(10)` accepts a single `'0'` or a nonzero digit followed by any
run of digits; `separated_by` accepts zero or more items, backtracking
over a separator that is not followed by an item; `try_map` receives the
half-open span of exactly the text the underlying parser consumed. -/

/-- A span-tagged syntax error (`Simple::custom(span, msg)`). -/
structure PErr where
  start : Nat
  stop : Nat
  msg : String
deriving DecidableEq, Repr

/-- `text::int(10)`: a single `'0'`, or a nonzero digit followed by a run
of digits (no leading zeroes).  Returns the matched text, the remaining
input and the position after the match. -/
def intP (cs : List Char) (pos : Nat) :
    Except PErr (String × List Char × Nat) :=
  match cs with
  | [] => .error ⟨pos, pos, "unexpected end of input"⟩
  | c :: rest =>
    if c = '0' then .ok ("0", rest, pos + 1)
    else if c.isDigit then
      let ds := rest.takeWhile Char.isDigit
      .ok (String.mk (c :: ds), rest.dropWhile Char.isDigit,
           pos + 1 + ds.length)
    else .error ⟨pos, pos + 1, "expected digit"⟩

/-- The repetition part of `separated_by(just(".."))` after the first
item: repeatedly consume `".."` followed by another integer, backtracking
(leaving the separator unconsumed) when no integer follows.  `fuel` is an
upper bound on the number of repetitions, instantiated with the input
length (each repetition consumes at least three characters). -/
def sepIntsAux : Nat → List Char → Nat → List String × List Char × Nat
| 0, cs, pos => ([], cs, pos)
| fuel+1, cs, pos =>
  match cs with
  | '.' :: '.' :: rest =>
    match intP rest (pos + 2) with
    | .ok (s, rest', pos') =>
      let (ss, r2, p2) := sepIntsAux fuel rest' pos'
      (s :: ss, r2, p2)
    | .error _ => ([], cs, pos)
  | _ => ([], cs, pos)

/-- `text::int(10).separated_by(just(".."))`: zero or more integers
separated by `".."` (zero items when the input does not start with an
integer at all). -/
def sepInts (cs : List Char) (pos : Nat) : List String × List Char × Nat :=
  match intP cs pos with
  | .error _ => ([], cs, pos)
  | .ok (s, rest, pos') =>
    let (ss, r2, p2) := sepIntsAux rest.length rest pos'
    (s :: ss, r2, p2)

/-- The numeric value of a decimal digit string, as used by Rust's
`str::parse::<i64>` on the (sign-free) strings `text::int(10)` can
produce. -/
def digitsVal (ds : List Char) : Nat :=
  ds.foldl (fun a c => 10 * a + (c.toNat - '0'.toNat)) 0

/-- `parse::<i64>()` on a digit string produced by `text::int(10)`:
succeeds exactly when the value fits in `i64`. -/
def parseI64 (s : String) : Option Int :=
  if digitsVal s.data ≤ 2 ^ 63 - 1 then some (digitsVal s.data) else none

/-- The whole `range` rule (src/lib.rs lines 55-73): run the
separated-by-`".."` integer list, then the `try_map`, whose span is the
half-open region the list matched: missing first or second component is
the error `"invalid range"` at that span, an out-of-range component is the
`parse::<i64>` failure message at that span, and otherwise the result is
`Node::Range(v1, v2)` (components beyond the second are ignored). -/
def rangeP (cs : List Char) (pos : Nat) :
    Except PErr (Node × List Char × Nat) :=
  let (vs, rest, pos') := sepInts cs pos
  match vs.get? 0, vs.get? 1 with
  | some a, some b =>
    match parseI64 a, parseI64 b with
    | some x, some y => .ok (Node.Range x y, rest, pos')
    | _, _ =>
      .error ⟨pos, pos', "number too large to fit in target type"⟩
  | _, _ => .error ⟨pos, pos', "invalid range"⟩

/-- A digit string acceptable to `text::int(10)`: nonempty, all digits,
and no leading zero (a leading `'0'` only as the whole string `"0"`). -/
def ValidInt (ds : List Char) : Prop :=
  ds ≠ [] ∧ (∀ c ∈ ds, c.isDigit) ∧ (ds.head? = some '0' → ds = ['0'])

instance (ds : List Char) : Decidable (ValidInt ds) := by
  unfold ValidInt
  infer_instance

/-- `s` repeated `n` times (the stdout of `n` identical body passes). -/
def repOut : Nat → String → String
| 0, _ => ""
| n+1, s => s ++ repOut n s

/-- Prefix stdout text produced before the argument loop onto its
outcome. -/
def argsPrepend (o : String) : ArgsOut → ArgsOut
| ArgsOut.ok acc env o2 => ArgsOut.ok acc env (o ++ o2)
| ArgsOut.fail r env o2 => ArgsOut.fail r env (o ++ o2)

/-! ## Helper lemmas -/

theorem takeWhile_append_all {p : Char → Bool} (l r : List Char)
    (hl : ∀ c ∈ l, p c = true)
    (hr : ∀ c, r.head? = some c → p c = false) :
    (l ++ r).takeWhile p = l ∧ (l ++ r).dropWhile p = r := by
  induction l with
  | nil =>
    simp only [List.nil_append]
    cases r with
    | nil => simp [List.takeWhile, List.dropWhile]
    | cons c r' =>
      have hc : p c = false := hr c rfl
      simp [List.takeWhile, List.dropWhile, hc]
  | cons a l' ih =>
    have ha : p a = true := hl a (by simp)
    have ih' := ih (fun c hc => hl c (by simp [hc]))
    simp [List.takeWhile, List.dropWhile, ha, ih'.1, ih'.2]

theorem intP_valid (ds rest : List Char) (pos : Nat) (h : ValidInt ds)
    (hr : ∀ c, rest.head? = some c → c.isDigit = false) :
    intP (ds ++ rest) pos = .ok (String.mk ds, rest, pos + ds.length) := by
  obtain ⟨hne, hdig, hzero⟩ := h
  cases ds with
  | nil => exact absurd rfl hne
  | cons d tail =>
    by_cases hd0 : d = '0'
    · subst hd0
      have htail : tail = [] := by
        have := hzero (by simp)
        simpa using this
      subst htail
      simp [intP]
    · have hd : d.isDigit = true := hdig d (by simp)
      have hta := takeWhile_append_all (p := Char.isDigit) tail rest
        (fun c hc => hdig c (by simp [hc])) hr
      have harith : pos + 1 + tail.length = pos + (tail.length + 1) := by
        omega
      simp only [List.cons_append, intP, if_neg hd0, hd, if_pos rfl,
        hta.1, hta.2, List.length_cons, harith]
      simp

theorem loopForever_fst_ne_ok (fuel : Nat) (step : Env → EvalOut) (env : Env)
    (v : Value) : (loopForever fuel step env).1 ≠ EResult.ok v := by
  induction fuel generalizing env with
  | zero => simp [loopForever]
  | succ f ih =>
    simp only [loopForever]
    rcases hs : step env with ⟨r, env', o⟩
    cases r with
    | ok w => simpa [prependOut] using ih env'
    | err e => simp
    | crash => simp
    | timeout => simp

theorem loopForever_timeout (fuel : Nat) (step : Env → EvalOut) (env : Env)
    (h : ∀ e, (∀ er, (step e).1 ≠ EResult.err er) ∧
      (step e).1 ≠ EResult.crash) :
    (loopForever fuel step env).1 = EResult.timeout := by
  induction fuel generalizing env with
  | zero => simp [loopForever]
  | succ f ih =>
    simp only [loopForever]
    rcases hs : step env with ⟨r, env', o⟩
    cases r with
    | ok w => simpa [prependOut] using ih env'
    | err e =>
      have := (h env).1 e
      rw [hs] at this
      simp at this
    | crash =>
      have := (h env).2
      rw [hs] at this
      simp at this
    | timeout => simp

theorem loopN_const (n : Nat) (step : Env → EvalOut) (O : String)
    (h : ∀ e, step e = (EResult.ok Value.Null, e, O)) (env : Env) :
    loopN n step env = (.ok Value.Null, env, repOut n O) := by
  induction n generalizing env with
  | zero => simp [loopN, repOut]
  | succ k ih => simp only [loopN, h env, prependOut, repOut, ih env]

theorem eval_while_range (fuel : Nat) (cond : Spanned) (body : List Spanned)
    (sp : Span) (env env' : Env) (o : String) (a b : Int)
    (h : eval fuel cond env = (.ok (Value.Range a b), env', o)) :
    eval fuel (Node.While cond body, sp) env
      = prependOut o
          (loopN (b - a).toNat (fun e => evalSeq fuel body e) env') := by
  simp only [eval, h]

theorem eval_while_inf (fuel : Nat) (cond : Spanned) (body : List Spanned)
    (sp : Span) (env env' : Env) (o : String) (c : Value)
    (h : eval fuel cond env = (.ok c, env', o))
    (hc : (∃ n, c = Value.Number n ∧ 0 < n) ∨ c = Value.Boolean true) :
    eval fuel (Node.While cond body, sp) env
      = prependOut o
          (loopForever fuel (fun e => evalSeq fuel body e) env') := by
  rcases hc with ⟨n, rfl, hn⟩ | rfl
  · simp only [eval, h, if_pos hn]
  · simp only [eval, h, if_pos rfl]
    simp

theorem string_empty_append (s : String) : "" ++ s = s := by
  cases s
  rfl

theorem digitChar_isDigit (d : Nat) (h : d < 10) :
    (digitChar d).isDigit = true := by
  interval_cases d <;> decide

theorem digitChar_val (d : Nat) (h : d < 10) :
    (digitChar d).toNat - '0'.toNat = d := by
  interval_cases d <;> decide

theorem digitsVal_append_singleton (xs : List Char) (c : Char) :
    digitsVal (xs ++ [c]) = 10 * digitsVal xs + (c.toNat - '0'.toNat) := by
  simp [digitsVal, List.foldl_append]

theorem digitsVal_cons_zero (t : List Char) :
    digitsVal ('0' :: t) = digitsVal t := by
  simp [digitsVal]

theorem digitsVal_replicate_zero (z : Nat) (ds : List Char) :
    digitsVal (List.replicate z '0' ++ ds) = digitsVal ds := by
  induction z with
  | zero => simp
  | succ k ih =>
    rw [List.replicate_succ, List.cons_append, digitsVal_cons_zero]
    exact ih

theorem natDigitsAux_zero (fuel : Nat) : natDigitsAux fuel 0 = [] := by
  cases fuel <;> simp [natDigitsAux]

theorem natDigitsAux_spec (fuel : Nat) : ∀ n : Nat, 0 < n → n ≤ fuel →
    digitsVal (natDigitsAux fuel n) = n
    ∧ (∀ c ∈ natDigitsAux fuel n, c.isDigit = true)
    ∧ natDigitsAux fuel n ≠ [] := by
  induction fuel with
  | zero => intro n hn hle; omega
  | succ f ih =>
    intro n hn hle
    have hmod : n % 10 < 10 := Nat.mod_lt n (by norm_num)
    simp only [natDigitsAux, if_neg (by omega : ¬ n = 0)]
    by_cases h10 : n / 10 = 0
    · have hn10 : n < 10 := by omega
      rw [h10, natDigitsAux_zero, List.nil_append]
      refine ⟨?_, ?_, by simp⟩
      · have : digitsVal [digitChar (n % 10)]
            = 10 * digitsVal [] + ((digitChar (n % 10)).toNat - '0'.toNat) := by
          simpa using digitsVal_append_singleton [] (digitChar (n % 10))
        rw [this, digitChar_val _ hmod]
        simp [digitsVal]
        omega
      · intro c hc
        simp at hc
        subst hc
        exact digitChar_isDigit _ hmod
    · have hlt : n / 10 < n := Nat.div_lt_self hn (by norm_num)
      obtain ⟨ih1, ih2, ih3⟩ := ih (n / 10) (by omega) (by omega)
      refine ⟨?_, ?_, by simp⟩
      · rw [digitsVal_append_singleton, ih1, digitChar_val _ hmod]
        omega
      · intro c hc
        rcases List.mem_append.mp hc with h | h
        · exact ih2 c h
        · simp at h
          subst h
          exact digitChar_isDigit _ hmod

theorem digitsVal_natDigits (n : Nat) : digitsVal (natDigits n) = n := by
  by_cases hn : n = 0
  · subst hn
    decide
  · simp only [natDigits, if_neg hn]
    exact (natDigitsAux_spec n n (by omega) le_rfl).1

theorem natDigits_isDigit (n : Nat) : ∀ c ∈ natDigits n, c.isDigit = true := by
  by_cases hn : n = 0
  · subst hn
    intro c hc
    simp [natDigits] at hc
    subst hc
    decide
  · simp only [natDigits, if_neg hn]
    exact (natDigitsAux_spec n n (by omega) le_rfl).2.1

theorem natDigits_ne_nil (n : Nat) : natDigits n ≠ [] := by
  by_cases hn : n = 0
  · subst hn
    decide
  · simp only [natDigits, if_neg hn]
    exact (natDigitsAux_spec n n (by omega) le_rfl).2.2

theorem natDigitsAux_length (fuel : Nat) : ∀ n k : Nat, n ≤ fuel → n < 10 ^ k →
    (natDigitsAux fuel n).length ≤ k := by
  induction fuel with
  | zero =>
    intro n k h1 h2
    simp [natDigitsAux]
  | succ f ih =>
    intro n k hle hlt
    by_cases hn : n = 0
    · subst hn
      simp [natDigitsAux]
    · have hk : 1 ≤ k := by
        rcases Nat.eq_zero_or_pos k with hk0 | hk1
        · subst hk0
          simp at hlt
          omega
        · exact hk1
      have hdiv : n / 10 < 10 ^ (k - 1) := by
        rw [Nat.div_lt_iff_lt_mul (by norm_num)]
        calc n < 10 ^ k := hlt
        _ = 10 ^ (k - 1) * 10 := by
          rw [← pow_succ]
          congr 1
          omega
      have hlt10 : n / 10 < n := Nat.div_lt_self (by omega) (by norm_num)
      have := ih (n / 10) (k - 1) (by omega) hdiv
      simp only [natDigitsAux, if_neg hn, List.length_append,
        List.length_singleton]
      omega

theorem natDigits_length_le (n k : Nat) (hk : 1 ≤ k) (h : n < 10 ^ k) :
    (natDigits n).length ≤ k := by
  by_cases hn : n = 0
  · subst hn
    simpa [natDigits] using hk
  · simp only [natDigits, if_neg hn]
    exact natDigitsAux_length n n k le_rfl h

theorem factorCount_not_dvd (p m : Nat) (h : ¬ p ∣ m) : factorCount p m = 0 := by
  rw [factorCount]
  exact dif_neg (by rintro ⟨-, -, h3⟩; exact h (Nat.dvd_of_mod_eq_zero h3))

theorem factorCount_pow_mul (p m : Nat) (hp : 2 ≤ p) (hm : 0 < m)
    (hnd : ¬ p ∣ m) : ∀ a, factorCount p (p ^ a * m) = a := by
  intro a
  induction a with
  | zero => simpa using factorCount_not_dvd p m hnd
  | succ a ih =>
    have hdvd : (p ^ (a + 1) * m) % p = 0 := by
      rcases dvd_mul_of_dvd_left (dvd_pow_self p (by omega : a + 1 ≠ 0)) m
        with ⟨c, hc⟩
      rw [hc]
      exact Nat.mul_mod_right p c
    have hquot : p ^ (a + 1) * m / p = p ^ a * m := by
      rw [pow_succ, show p ^ a * p * m = p * (p ^ a * m) by ring]
      exact Nat.mul_div_cancel_left _ (by omega)
    rw [factorCount, dif_pos ⟨hp, by positivity, hdvd⟩, hquot, ih]

theorem den_factor_2 (d a b : Nat) (h : d = 2 ^ a * 5 ^ b) :
    factorCount 2 d = a := by
  subst h
  refine factorCount_pow_mul 2 (5 ^ b) (by norm_num) (by positivity) ?_ a
  intro hdvd
  have := Nat.Prime.dvd_of_dvd_pow Nat.prime_two hdvd
  norm_num at this

theorem den_factor_5 (d a b : Nat) (h : d = 2 ^ a * 5 ^ b) :
    factorCount 5 d = b := by
  subst h
  rw [mul_comm]
  refine factorCount_pow_mul 5 (2 ^ a) (by norm_num) (by positivity) ?_ b
  intro hdvd
  have := Nat.Prime.dvd_of_dvd_pow (by norm_num : Nat.Prime 5) hdvd
  norm_num at this

theorem nat_decomp_div_mod (x k : Nat) :
    ((x / 10 ^ k : ℕ) : ℚ) + ((x % 10 ^ k : ℕ) : ℚ) / (10:ℚ) ^ k
      = (x : ℚ) / (10:ℚ) ^ k := by
  have h10 : ((10:ℚ)) ^ k ≠ 0 := by positivity
  rw [show ((x : ℕ) : ℚ) = ((10 ^ k * (x / 10 ^ k) + x % 10 ^ k : ℕ) : ℚ) by
    rw [Nat.div_add_mod]]
  push_cast
  rw [mul_comm ((10:ℚ) ^ k), add_div, mul_div_cancel_right₀ _ h10]

theorem numToString_decimal (q : ℚ) (a b : Nat) (hq : 0 < q)
    (hden : 1 < q.den) (hfact : q.den = 2 ^ a * 5 ^ b) :
    numToString q
      = String.mk
          (natDigits (q.num.natAbs * 10 ^ max a b / q.den / 10 ^ max a b))
        ++ "."
        ++ String.mk (List.replicate
            (max a b
              - (natDigits
                  (q.num.natAbs * 10 ^ max a b / q.den % 10 ^ max a b)).length)
            '0'
            ++ natDigits
                (q.num.natAbs * 10 ^ max a b / q.den % 10 ^ max a b)) := by
  have h2 := den_factor_2 q.den a b hfact
  have h5 := den_factor_5 q.den a b hfact
  have hnum : ¬ q.num < 0 := by
    have := Rat.num_pos.mpr hq
    omega
  simp only [numToString, if_neg (by omega : ¬ q.den = 1), h2, h5]
  rw [if_pos hfact, if_neg hnum, string_empty_append]

/-- The display of a positive non-integral number with a terminating
decimal expansion is a decimal numeral — nonempty digit strings for the
integer and fractional parts around a point — whose value is exactly the
number. -/
theorem number_display_decimal (q : ℚ) (a b : Nat) (hq : 0 < q)
    (hden : 1 < q.den) (hfact : q.den = 2 ^ a * 5 ^ b) :
    ∃ ip fr : List Char,
      valueToString (Value.Number q) = String.mk ip ++ "." ++ String.mk fr
      ∧ ip ≠ [] ∧ fr ≠ []
      ∧ (∀ c ∈ ip, c.isDigit = true) ∧ (∀ c ∈ fr, c.isDigit = true)
      ∧ (digitsVal ip : ℚ) + (digitsVal fr : ℚ) / 10 ^ fr.length = q := by
  set k := max a b with hkdef
  set m := q.num.natAbs * 10 ^ k / q.den with hmdef
  have hk1 : 1 ≤ k := by
    rcases Nat.eq_zero_or_pos k with hk0 | h
    · exfalso
      rcases Nat.max_eq_zero_iff.mp hk0 with ⟨ha, hb⟩
      rw [ha, hb] at hfact
      norm_num at hfact
      omega
    · exact h
  have hdvd10 : q.den ∣ 10 ^ k := by
    rw [hfact,
      show (10:ℕ) ^ k = 2 ^ k * 5 ^ k by
        rw [show (10:ℕ) = 2 * 5 from rfl, mul_pow]]
    exact mul_dvd_mul (pow_dvd_pow 2 (le_max_left a b))
      (pow_dvd_pow 5 (le_max_right a b))
  have hdvdm : q.den ∣ q.num.natAbs * 10 ^ k := hdvd10.mul_left _
  have hpow_pos : 0 < 10 ^ k := Nat.pos_pow_of_pos k (by norm_num)
  have hL : (natDigits (m % 10 ^ k)).length ≤ k :=
    natDigits_length_le _ k hk1 (Nat.mod_lt _ hpow_pos)
  refine ⟨natDigits (m / 10 ^ k),
    List.replicate (k - (natDigits (m % 10 ^ k)).length) '0'
      ++ natDigits (m % 10 ^ k),
    ?_, natDigits_ne_nil _, ?_, natDigits_isDigit _, ?_, ?_⟩
  · simp only [valueToString]
    exact numToString_decimal q a b hq hden hfact
  · intro hcontra
    rw [List.append_eq_nil] at hcontra
    exact natDigits_ne_nil _ hcontra.2
  · intro c hc
    rcases List.mem_append.mp hc with h | h
    · rw [List.eq_of_mem_replicate h]
      decide
    · exact natDigits_isDigit _ c h
  · rw [digitsVal_natDigits, digitsVal_replicate_zero, digitsVal_natDigits]
    have hlen : (List.replicate (k - (natDigits (m % 10 ^ k)).length) '0'
        ++ natDigits (m % 10 ^ k)).length = k := by
      simp only [List.length_append, List.length_replicate]
      omega
    rw [hlen]
    have hden0 : (q.den : ℚ) ≠ 0 := Nat.cast_ne_zero.mpr (by omega)
    have h10 : ((10:ℚ)) ^ k ≠ 0 := by positivity
    have hm_eq : (m : ℚ) = (q.num.natAbs : ℚ) * 10 ^ k / (q.den : ℚ) := by
      field_simp
      exact_mod_cast Nat.div_mul_cancel hdvdm
    have hNq : (q.num.natAbs : ℚ) = (q.num : ℚ) := by
      have hpos : 0 ≤ q.num := le_of_lt (Rat.num_pos.mpr hq)
      rw [Int.cast_natAbs]
      exact congrArg (fun z : Int => (z : ℚ)) (abs_of_nonneg hpos)
    rw [nat_decomp_div_mod m k, hm_eq, hNq, div_div,
      mul_div_mul_right _ _ h10]
    exact Rat.num_div_den q

/-! ## Claim theorems -/

/-- Claim C5: for every `Call` node whose callee is `Ident(name)` with
`name` different from `"display"`, evaluation fails with
`FunctionNotFound(name)` carrying that name, tagged with the callee's
span (and the arguments are never evaluated: the environment and stdout
are untouched). -/
theorem claim_C5 (fuel : Nat) (name : String) (cspan : Span)
    (args : List Spanned) (sp : Span) (env : Env) (h : name ≠ "display") :
    eval fuel (Node.Call (Node.Ident name, cspan) args, sp) env
      = (.err (EvaluationError.FunctionNotFound name, cspan), env, "") := by
  simp only [eval, if_neg h]

/-- Witness for C5 at the concrete call `foo()`. -/
theorem claim_C5_witness :
    eval 1 (Node.Call (Node.Ident "foo", (0, 3)) [], (0, 5)) emptyEnv
      = (.err (EvaluationError.FunctionNotFound "foo", (0, 3)),
         emptyEnv, "") :=
  claim_C5 1 "foo" (0, 3) [] (0, 5) emptyEnv (by decide)

/-- Claim C9: evaluating an `Op` node (a bare operator-run in evaluation
position) neither returns a value nor a recoverable evaluation error: it
is the unhandled-case process abort (`panic!`, modelled by `.crash`),
never a silent no-op. -/
theorem claim_C9 (fuel : Nat) (s : String) (sp : Span) (env : Env) :
    eval fuel (Node.Op s, sp) env = (.crash, env, "")
    ∧ (∀ v env2 o2,
        eval fuel (Node.Op s, sp) env ≠ (EResult.ok v, env2, o2))
    ∧ (∀ er env2 o2,
        eval fuel (Node.Op s, sp) env ≠ (EResult.err er, env2, o2)) := by
  have h : eval fuel (Node.Op s, sp) env = (.crash, env, "") := by
    simp [eval]
  refine ⟨h, ?_, ?_⟩
  · intro v env2 o2 hc
    rw [h] at hc
    simp at hc
  · intro er env2 o2 hc
    rw [h] at hc
    simp at hc

/-- Witness for C9: evaluating the bare operator-run `..` aborts
(`.crash`), and in particular does not evaluate to `Null`. -/
theorem claim_C9_witness :
    eval 1 (Node.Op "..", (0, 2)) emptyEnv = (EResult.crash, emptyEnv, "")
    ∧ eval 1 (Node.Op "..", (0, 2)) emptyEnv
        ≠ (EResult.ok Value.Null, emptyEnv, "") :=
  ⟨(claim_C9 1 ".." (0, 2) emptyEnv).1,
   (claim_C9 1 ".." (0, 2) emptyEnv).2.1 Value.Null emptyEnv ""⟩

/-- Claim C10: if `eval` is applied to a `Call` node whose callee is not
an `Ident` node, the callee check falls through silently: no error, no
output, environment untouched, and the call evaluates to `Null`. -/
theorem claim_C10 (fuel : Nat) (cn : Node) (cspan : Span)
    (args : List Spanned) (sp : Span) (env : Env)
    (h : ∀ nm, cn ≠ Node.Ident nm) :
    eval fuel (Node.Call (cn, cspan) args, sp) env
      = (.ok Value.Null, env, "") := by
  cases cn <;> first
  | exact absurd rfl (h _)
  | simp [eval]

/-- Claim C1: for every `While` node whose condition evaluates to
`Number(n)` with `n > 0`, or to `Boolean(true)`, evaluation enters an
unconditional infinite iteration of the body.  First conjunct: after the
single condition evaluation at loop entry, the whole remaining
computation is `loopForever` over the body alone — the condition never
appears again, so it is never re-checked.  Second conjunct: the loop
never terminates with a value, at any fuel.  Third conjunct: provided
every body pass succeeds (never an evaluation error, never a panic), the
loop is still running when any amount of fuel runs out. -/
theorem claim_C1 :
    ∀ (fuel : Nat) (cond : Spanned) (body : List Spanned) (sp : Span)
      (env env' : Env) (o : String) (c : Value),
      eval fuel cond env = (EResult.ok c, env', o) →
      ((∃ n, c = Value.Number n ∧ 0 < n) ∨ c = Value.Boolean true) →
      eval fuel (Node.While cond body, sp) env
        = prependOut o
            (loopForever fuel (fun e => evalSeq fuel body e) env')
      ∧ (∀ v env2 o2,
          eval fuel (Node.While cond body, sp) env
            ≠ (EResult.ok v, env2, o2))
      ∧ ((∀ e, (∀ er, (evalSeq fuel body e).1 ≠ EResult.err er) ∧
            (evalSeq fuel body e).1 ≠ EResult.crash) →
         (eval fuel (Node.While cond body, sp) env).1
           = EResult.timeout) := by
  intro fuel cond body sp env env' o c h hc
  have hun := eval_while_inf fuel cond body sp env env' o c h hc
  refine ⟨hun, ?_, ?_⟩
  · intro v env2 o2 hcontra
    rw [hun] at hcontra
    rcases hl : loopForever fuel (fun e => evalSeq fuel body e) env' with
      ⟨r, envL, oL⟩
    rw [hl] at hcontra
    simp only [prependOut, Prod.mk.injEq] at hcontra
    have hne := loopForever_fst_ne_ok fuel
      (fun e => evalSeq fuel body e) env' v
    rw [hl] at hne
    exact hne hcontra.1
  · intro hbody
    rw [hun]
    have ht := loopForever_timeout fuel
      (fun e => evalSeq fuel body e) env' hbody
    rcases hl : loopForever fuel (fun e => evalSeq fuel body e) env' with
      ⟨r, envL, oL⟩
    rw [hl] at ht
    simp only [prependOut]
    exact ht

/-- Witness for C1: `while true { }` at fuel 5: the condition evaluates
to `Boolean(true)`, the empty body always succeeds, and the loop is still
running when the fuel runs out. -/
theorem claim_C1_witness :
    (eval 5 (Node.While (Node.BooleanLiteral true, (6, 10)) [], (0, 12))
        emptyEnv).1 = EResult.timeout := by
  have h := claim_C1 5 (Node.BooleanLiteral true, (6, 10)) [] (0, 12)
    emptyEnv emptyEnv "" (Value.Boolean true) (by simp [eval]) (Or.inr rfl)
  exact h.2.2 (by intro e; simp [evalSeq])

/-- Claim C2: for all valid decimal integer pairs `a..b`, the source text
`a..b` parses under the `range` rule to the node `Range(a, b)` (consuming
the whole text, with the matched span), and a `While` node whose
condition evaluates to `Range(start, end)` executes its body statement
sequence, in order, exactly `max(end - start, 0)` times — in particular
zero times when `start >= end` (for a body whose single pass always
succeeds from any environment, leaving it unchanged and printing `O`,
the loop prints exactly `max(end - start, 0)` copies of `O`). -/
theorem claim_C2 :
    (∀ (ds1 ds2 : List Char) (pos : Nat), ValidInt ds1 → ValidInt ds2 →
      digitsVal ds1 ≤ 2 ^ 63 - 1 → digitsVal ds2 ≤ 2 ^ 63 - 1 →
      rangeP (ds1 ++ '.' :: '.' :: ds2) pos
        = .ok (Node.Range (digitsVal ds1) (digitsVal ds2), [],
               pos + ds1.length + 2 + ds2.length))
    ∧ (∀ (fuel : Nat) (cond : Spanned) (body : List Spanned) (sp : Span)
        (env env' : Env) (o O : String) (a b : Int),
      eval fuel cond env = (EResult.ok (Value.Range a b), env', o) →
      (∀ e, evalSeq fuel body e = (EResult.ok Value.Null, e, O)) →
      eval fuel (Node.While cond body, sp) env
        = (EResult.ok Value.Null, env',
           o ++ repOut (max (b - a) 0).toNat O)) := by
  constructor
  · intro ds1 ds2 pos h1 h2 hb1 hb2
    have hi1 := intP_valid ds1 ('.' :: '.' :: ds2) pos h1
      (by intro c hc; simp at hc; subst hc; decide)
    have hi2 : intP ds2 (pos + ds1.length + 2)
        = .ok (String.mk ds2, [], pos + ds1.length + 2 + ds2.length) := by
      have := intP_valid ds2 [] (pos + ds1.length + 2) h2
        (by intro c hc; simp at hc)
      simpa using this
    have haux : sepIntsAux ('.' :: '.' :: ds2).length ('.' :: '.' :: ds2)
        (pos + ds1.length)
        = ([String.mk ds2], [], pos + ds1.length + 2 + ds2.length) := by
      simp only [List.length_cons]
      rw [sepIntsAux]
      simp only [hi2]
      rw [sepIntsAux]
      simp
    have hdata1 : (String.mk ds1).data = ds1 := rfl
    have hdata2 : (String.mk ds2).data = ds2 := rfl
    simp only [rangeP, sepInts, hi1, haux]
    simp only [List.get?, parseI64, hdata1, hdata2, if_pos hb1, if_pos hb2]
  · intro fuel cond body sp env env' o O a b h hbody
    have hr := eval_while_range fuel cond body sp env env' o a b h
    have hmax : (b - a).toNat = (max (b - a) 0).toNat := by omega
    rw [hr, hmax,
      loopN_const (max (b - a) 0).toNat (fun e => evalSeq fuel body e) O
        hbody env']
    simp [prependOut]

/-- Witness for C2: `12..3` parses to `Range(12, 3)`, and
`while 0..2 { display(\x60x\x60) }` runs its body exactly twice, printing
`x` twice. -/
theorem claim_C2_witness :
    rangeP ("12..3".data) 0 = .ok (Node.Range 12 3, [], 5)
    ∧ eval 3 (Node.While (Node.Range 0 2, (6, 10))
        [(Node.Call (Node.Ident "display", (13, 20))
           [(Node.StringLiteral "x", (21, 24))], (13, 25))], (0, 27)) emptyEnv
      = (.ok Value.Null, emptyEnv, "x\nx\n") := by
  constructor
  · have h := claim_C2.1 ['1', '2'] ['3'] 0 (by decide) (by decide)
      (by decide) (by decide)
    exact h.trans (by rfl)
  · have h := claim_C2.2 3 (Node.Range 0 2, (6, 10))
      [(Node.Call (Node.Ident "display", (13, 20))
        [(Node.StringLiteral "x", (21, 24))], (13, 25))] (0, 27)
      emptyEnv emptyEnv "" "x\n" 0 2 (by simp [eval])
      (by
        intro e
        simp [evalSeq, eval, evalArgs, valueToString]
        rfl)
    rw [h]
    rfl

/-- Claim C8: a range literal with fewer than two decimal-integer
components is rejected by the `range` rule with the syntax error
`"invalid range"` at the literal's span: for a single integer followed by
`..` the reported span covers the matched integer component, and for no
integer component at all it is the empty span at the attempt position. -/
theorem claim_C8 :
    (∀ (ds : List Char) (pos : Nat), ValidInt ds →
      rangeP (ds ++ ['.', '.']) pos
        = .error ⟨pos, pos + ds.length, "invalid range"⟩)
    ∧ (∀ pos : Nat,
      rangeP [] pos = .error ⟨pos, pos, "invalid range"⟩) := by
  constructor
  · intro ds pos h
    have hi := intP_valid ds ['.', '.'] pos h
      (by intro c hc; simp at hc; subst hc; decide)
    have haux : sepIntsAux (['.', '.'] : List Char).length ['.', '.']
        (pos + ds.length) = ([], ['.', '.'], pos + ds.length) := by
      rw [show (['.', '.'] : List Char).length = 1 + 1 from rfl]
      rw [sepIntsAux]
      simp [intP]
    simp only [rangeP, sepInts, hi, haux]
    rfl
  · intro pos
    simp [rangeP, sepInts, intP]

/-- Witness for C8: `1..` is rejected with `"invalid range"` at span
`[0, 1)` (the span of the matched integer component). -/
theorem claim_C8_witness :
    rangeP ("1..".data) 0 = .error ⟨0, 1, "invalid range"⟩ :=
  (claim_C8.1 ['1'] 0 (by decide)).trans (by rfl)

/-- Claim C4: evaluating `Ident(name)` with no binding in the environment
fails with `VariableNotFound` carrying exactly that name, tagged with the
identifier node's span; with a binding it returns a copy of the bound
value; and such a failure aborts only the current top-level statement —
the driving loop of `main` still evaluates the subsequent top-level
statements (the error is pushed onto the error list and the rest of the
program runs from the environment the failing statement left behind). -/
theorem claim_C4 :
    (∀ (fuel : Nat) (name : String) (sp : Span) (env : Env),
      env name = none →
      eval fuel (Node.Ident name, sp) env
        = (.err (EvaluationError.VariableNotFound name, sp), env, ""))
    ∧ (∀ (fuel : Nat) (name : String) (sp : Span) (env : Env) (v : Value),
      env name = some v →
      eval fuel (Node.Ident name, sp) env = (.ok v, env, ""))
    ∧ (∀ (fuel : Nat) (node : Spanned) (env env1 : Env)
        (e : SpannedEvaluationError) (o1 : String) (rest : List Spanned),
      eval fuel node env = (.err e, env1, o1) →
      runProgram fuel (node :: rest) env
        = ((runProgram fuel rest env1).1,
           o1 ++ (runProgram fuel rest env1).2.1,
           e :: (runProgram fuel rest env1).2.2)) := by
  refine ⟨?_, ?_, ?_⟩
  · intro fuel name sp env h
    simp [eval, h]
  · intro fuel name sp env v h
    simp [eval, h]
  · intro fuel node env env1 e o1 rest h
    rcases hrp : runProgram fuel rest env1 with ⟨e2, rest2⟩
    rcases rest2 with ⟨o2, errs⟩
    simp only [runProgram, h, hrp]

/-- Witness for C4: the program `y. display(\x60ok\x60)` (an unbound
identifier followed by a valid statement): the driver records
`VariableNotFound("y")` at the identifier's span and still runs the next
statement, which prints `ok`. -/
theorem claim_C4_witness :
    runProgram 1 [(Node.Ident "y", (0, 1)),
        (Node.Call (Node.Ident "display", (3, 10))
          [(Node.StringLiteral "ok", (11, 15))], (3, 16))] emptyEnv
      = (emptyEnv, "ok\n", [(EvaluationError.VariableNotFound "y", (0, 1))]) := by
  have h1 := claim_C4.1 1 "y" (0, 1) emptyEnv rfl
  have h3 := claim_C4.2.2 1 (Node.Ident "y", (0, 1)) emptyEnv emptyEnv
    (EvaluationError.VariableNotFound "y", (0, 1)) ""
    [(Node.Call (Node.Ident "display", (3, 10))
      [(Node.StringLiteral "ok", (11, 15))], (3, 16))] h1
  rw [h3]
  have hrest : runProgram 1 [(Node.Call (Node.Ident "display", (3, 10))
      [(Node.StringLiteral "ok", (11, 15))], (3, 16))] emptyEnv
      = (emptyEnv, "ok\n", []) := by
    simp [runProgram, eval, evalArgs, valueToString]
  rw [hrest]
  rfl

/-- Claim C6: evaluating `Variable(name, value_expr)` first evaluates
`value_expr`, then inserts or overwrites the binding `name → result` in
the environment, and the binding statement itself evaluates to `Null`;
when the same name is bound twice the later binding replaces the earlier
one, so a subsequent `Ident(name)` reads the later value. -/
theorem claim_C6 :
    (∀ (fuel : Nat) (name : String) (vexpr : Spanned) (sp : Span)
        (env env' : Env) (o : String) (v : Value),
      eval fuel vexpr env = (.ok v, env', o) →
      eval fuel (Node.Variable name vexpr, sp) env
        = (.ok Value.Null, insertVar name v env', o))
    ∧ (∀ (name : String) (v1 v2 : Value) (env0 : Env),
      insertVar name v2 (insertVar name v1 env0) name = some v2)
    ∧ (∀ (fuel : Nat) (name : String) (sp2 : Span) (v2 : Value)
        (env0 : Env),
      eval fuel (Node.Ident name, sp2) (insertVar name v2 env0)
        = (.ok v2, insertVar name v2 env0, "")) := by
  refine ⟨?_, ?_, ?_⟩
  · intro fuel name vexpr sp env env' o v h
    simp only [eval, h]
  · intro name v1 v2 env0
    simp [insertVar]
  · intro fuel name sp2 v2 env0
    simp [eval, insertVar]

/-- Witness for C6: `x := 1` evaluated in the empty environment binds
`x` to `Number 1` and itself evaluates to `Null`, and after `x := 2`
over it, reading `x` gives `Number 2`. -/
theorem claim_C6_witness :
    eval 1 (Node.Variable "x" (Node.NumericLiteral 1, (5, 6)), (0, 6)) emptyEnv
      = (.ok Value.Null, insertVar "x" (Value.Number 1) emptyEnv, "")
    ∧ eval 1 (Node.Ident "x", (12, 13))
        (insertVar "x" (Value.Number 2) (insertVar "x" (Value.Number 1) emptyEnv))
      = (.ok (Value.Number 2),
         insertVar "x" (Value.Number 2) (insertVar "x" (Value.Number 1) emptyEnv),
         "") :=
  ⟨claim_C6.1 1 "x" (Node.NumericLiteral 1, (5, 6)) (0, 6) emptyEnv emptyEnv
      "" (Value.Number 1) (by simp [eval]),
   claim_C6.2.2 1 "x" (12, 13) (Value.Number 2)
      (insertVar "x" (Value.Number 1) emptyEnv)⟩

/-- Claim C3: a `Call` whose callee is `Ident("display")` evaluates every
argument left to right, converts each result to text by the `Value`
display rule (`Null` renders as empty text, `Range(start, end)` as
`"start..end"`, numbers, booleans and strings in their natural textual
form), writes the concatenation with no separator to stdout followed by
exactly one line terminator, and the call itself evaluates to `Null`.
The natural textual form of a number: an integral number prints as its
integer (no decimal part), and a positive non-integral number with a
terminating decimal expansion — the only non-integral numbers this
program can construct — prints as the decimal numeral denoting exactly
that value (e.g. `1/2` as `"0.5"`, `157/50` as `"3.14"`). -/
theorem claim_C3 :
    (∀ (fuel : Nat) (spC sp : Span) (args : List Spanned) (env env' : Env)
        (acc o : String),
      evalArgs fuel args env "" = ArgsOut.ok acc env' o →
      eval fuel (Node.Call (Node.Ident "display", spC) args, sp) env
        = (.ok Value.Null, env', o ++ acc ++ "\n"))
    ∧ (∀ (fuel : Nat) (a : Spanned) (rest : List Spanned) (env env1 : Env)
        (acc0 o1 : String) (v : Value),
      eval fuel a env = (.ok v, env1, o1) →
      evalArgs fuel (a :: rest) env acc0
        = argsPrepend o1 (evalArgs fuel rest env1 (acc0 ++ valueToString v)))
    ∧ (∀ (fuel : Nat) (env : Env) (acc0 : String),
      evalArgs fuel [] env acc0 = ArgsOut.ok acc0 env "")
    ∧ valueToString Value.Null = ""
    ∧ (∀ rs re : Int,
      valueToString (Value.Range rs re) = toString rs ++ ".." ++ toString re)
    ∧ (∀ s : String, valueToString (Value.String s) = s)
    ∧ (∀ b : Bool,
      valueToString (Value.Boolean b) = if b then "true" else "false")
    ∧ (∀ n : Int, valueToString (Value.Number (n : ℚ)) = toString n)
    ∧ valueToString (Value.Number (1 / 2)) = "0.5"
    ∧ valueToString (Value.Number (157 / 50)) = "3.14"
    ∧ (∀ (q : ℚ) (a b : Nat), 0 < q → 1 < q.den → q.den = 2 ^ a * 5 ^ b →
      ∃ ip fr : List Char,
        valueToString (Value.Number q) = String.mk ip ++ "." ++ String.mk fr
        ∧ ip ≠ [] ∧ fr ≠ []
        ∧ (∀ c ∈ ip, c.isDigit = true) ∧ (∀ c ∈ fr, c.isDigit = true)
        ∧ (digitsVal ip : ℚ) + (digitsVal fr : ℚ) / 10 ^ fr.length = q) := by
  refine ⟨?_, ?_, ?_, rfl, fun rs re => rfl, fun s => rfl, fun b => rfl,
    ?_, ?_, ?_, number_display_decimal⟩
  · intro fuel spC sp args env env' acc o h
    simp [eval, h]
  · intro fuel a rest env env1 acc0 o1 v h
    simp only [evalArgs, h]
    rcases harg : evalArgs fuel rest env1 (acc0 ++ valueToString v) with
      ⟨acc2, env2, o2⟩ | ⟨r, env2, o2⟩ <;> simp [argsPrepend]
  · intro fuel env acc0
    simp [evalArgs]
  · intro n
    simp [valueToString, numToString, Rat.den_intCast, Rat.num_intCast]
  · rw [show (1 / 2 : ℚ) = mkRat 1 2 by rw [Rat.mkRat_eq_div]; norm_num,
      show valueToString (Value.Number (mkRat 1 2))
        = numToString (mkRat 1 2) from rfl,
      numToString_decimal (mkRat 1 2) 1 0 (by decide) (by decide) (by decide)]
    decide
  · rw [show (157 / 50 : ℚ) = mkRat 157 50 by rw [Rat.mkRat_eq_div]; norm_num,
      show valueToString (Value.Number (mkRat 157 50))
        = numToString (mkRat 157 50) from rfl,
      numToString_decimal (mkRat 157 50) 1 2 (by decide) (by decide)
        (by decide)]
    decide

/-- Witness for C3: `display(\x60a\x60, \x60b\x60)` prints `ab` followed
by one newline and evaluates to `Null`; and the number `1/2` displays as
a decimal numeral denoting exactly `1/2`. -/
theorem claim_C3_witness :
    (eval 1 (Node.Call (Node.Ident "display", (0, 7))
        [(Node.StringLiteral "a", (8, 11)), (Node.StringLiteral "b", (13, 16))],
        (0, 17)) emptyEnv
      = (.ok Value.Null, emptyEnv, "ab\n"))
    ∧ ∃ ip fr : List Char,
        valueToString (Value.Number (mkRat 1 2))
          = String.mk ip ++ "." ++ String.mk fr
        ∧ (digitsVal ip : ℚ) + (digitsVal fr : ℚ) / 10 ^ fr.length
            = mkRat 1 2 := by
  constructor
  · have h := claim_C3.1 1 (0, 7) (0, 17)
      [(Node.StringLiteral "a", (8, 11)), (Node.StringLiteral "b", (13, 16))]
      emptyEnv emptyEnv "ab" ""
      (by simp [evalArgs, eval, valueToString])
    exact h.trans rfl
  · obtain ⟨ip, fr, h1, -, -, -, -, h6⟩ :=
      claim_C3.2.2.2.2.2.2.2.2.2.2 (mkRat 1 2) 1 0
        (by decide) (by decide) (by decide)
    exact ⟨ip, fr, h1, h6⟩

/-- Witness for C10: a call whose callee is a numeric literal and whose
argument is an unbound identifier still evaluates to `Null` with no
error, no output and no environment change. -/
theorem claim_C10_witness :
    eval 1 (Node.Call (Node.NumericLiteral 1, (0, 1))
        [(Node.Ident "missing", (2, 9))], (0, 10)) emptyEnv
      = (.ok Value.Null, emptyEnv, "") :=
  claim_C10 1 (Node.NumericLiteral 1) (0, 1)
    [(Node.Ident "missing", (2, 9))] (0, 10) emptyEnv (by intro nm; simp)

end Paris

